import Mathlib

/-!
# harvest-api-client: a shallow embedding of `api.go`

The Go file `api.go` is a thin HTTP client: a constructor, four request
verbs, a header helper and a pagination loop.  Everything the file calls
but does not define (the `net/http` transport, `http.NewRequest`,
`encoding/json`, `Arguments.ToURLValues().Encode()`, the `Pageable`
destination and the `afterFetch` closure) is a parameter of the model.

Conventions of the embedding

* A Go `map[string]string` is a finite partial function `String → Option String`.
* An `error` value is a term of `Error`; `errors.Wrapf` and `errors.Errorf`
  are constructors, and `Error.Error` renders the message as
  `github.com/pkg/errors` does.
* The outside world (network, and every variable a closure may capture) is a
  value `w : ω` threaded through the calls.
* The caller's own code that runs during `GetPaginated`, the `afterFetch`
  closure and the `HasNextPage` method of the destination, is a function on
  the caller's whole state (map, destination, world): it may change any of it.
* A response body is a stream: the bytes it yields and the read error, if any,
  that ends it.
* The loop of `GetPaginated` need not terminate (a server may announce a next
  page for ever), so it carries a fuel counter bounding the number of
  evaluations of `HasNextPage`; `none` as an outcome means the fuel ran out.
* `GetPaginated` is instrumented with the chronological list of the calls it
  makes (`Event`); the instrumentation changes no value it computes.
* The page counter is a Go `int`; it is a `Nat` here, which is exact for any
  run of fewer than `2^63` pages.
* The map, the destination and the closure handed to `GetPaginated` are taken
  to be non-nil; a nil `client` field is modelled (`Ret.panic`).
-/

set_option linter.dupNamespace false

namespace Harvest

/-! ## Constants -/

def CLIENT_VERSION : String := "1.1.2"
def HARVEST_DOMAIN : String := "api.harvestapp.com"
def HARVEST_API_VERSION : String := "v2"

/-! ## Errors -/

/-- Go `error` values as `api.go` sees and builds them. -/
inductive Error where
  /-- an error produced by a library (`net/http`, `io`, `encoding/json`) -/
  | lib (msg : String)
  /-- the value of `errors.Errorf(msg)` -/
  | errorf (msg : String)
  /-- the value of `errors.Wrapf(cause, msg)` -/
  | wrapf (cause : Error) (msg : String)
  deriving DecidableEq, Repr

/-- The `Error()` method: a wrapped error prints as `msg: cause`. -/
def Error.Error : Error → String
  | .lib msg => msg
  | .errorf msg => msg
  | .wrapf cause msg => msg ++ ": " ++ cause.Error

/-- What a call of one of the verbs does: return a nil error, return an error,
or panic (nil pointer dereference of `a.client`). -/
inductive Ret where
  | nil
  | error (e : Error)
  | panic
  deriving DecidableEq, Repr

/-! ## Maps, headers, requests, responses -/

/-- The type `Arguments` (a `map[string]string`). -/
abbrev Arguments := String → Option String

/-- The assignment `args[k] = v`. -/
def Arguments.set (args : Arguments) (k v : String) : Arguments :=
  fun x => if x = k then some v else args x

/-- The type `http.Header` (a `map[string][]string`). -/
abbrev Header := String → Option (List String)

/-- The method `Header.Set(key, value)`: the entry of `key` becomes the single value.
Every key `api.go` passes is already in canonical MIME form. -/
def Header.Set (h : Header) (key value : String) : Header :=
  fun x => if x = key then some [value] else h x

/-- The fields of `http.Request` the file touches. -/
structure Request where
  Method : String
  URL : String
  Header : Header
  Body : Option String

/-- A response body stream: the bytes it yields, then the read error (if any). -/
structure Body where
  data : String
  err : Option Error
  deriving DecidableEq, Repr

/-- The function `ioutil.ReadAll`: what was read, and the error that stopped the read. -/
def ReadAll (b : Body) : String × Option Error := (b.data, b.err)

/-- The fields of `http.Response` the file touches. -/
structure Response where
  StatusCode : Int
  Body : Body
  deriving DecidableEq, Repr

/-- The method `(*http.Client).Do`: one round trip, in world `w`. -/
abbrev HTTPClient (ω : Type) := ω → Request → Except Error Response × ω

/-- What `decoder.Decode(target)` leaves behind: the destination as written,
the error, and the part of the stream the decoder has not consumed. -/
structure Decoded (τ : Type) where
  target : τ
  err : Option Error
  rest : Body

/-- The collaborators `api.go` calls but does not define. -/
structure Env (τ π : Type) where
  /-- the call `args.ToURLValues().Encode()` -/
  Encode : Arguments → String
  /-- the call `http.NewRequest(method, url, body)` -/
  NewRequest : String → String → Option String → Except Error Request
  /-- the call `json.NewDecoder(body).Decode(target)` -/
  Decode : Body → τ → Decoded τ
  /-- the bytes `json.NewEncoder(buffer).Encode(postData)` writes to the buffer -/
  Marshal : π → String

/-! ## The client -/

/-- The struct `API`. -/
structure API (ω : Type) where
  client : Option (HTTPClient ω)
  BaseURL : String
  AccountID : String
  AccessToken : String
  RefreshToken : String

/-- The constructor `HarvestClient`; `DefaultClient` is `http.DefaultClient`. -/
def HarvestClient {ω : Type} (DefaultClient : HTTPClient ω)
    (accountID accessToken : String) : API ω :=
  { client := some DefaultClient
    BaseURL := "https://" ++ HARVEST_DOMAIN ++ "/" ++ HARVEST_API_VERSION
    AccountID := accountID
    AccessToken := accessToken
    RefreshToken := "" }

/-- The method `AddHeaders`: four `Header.Set` calls on the request. The comment above it in
`api.go` names `User-Agent`, `Accept` and `Authorization`; the code sets `Harvest-Account-Id`
as well. -/
def API.AddHeaders {ω : Type} (a : API ω) (req : Request) : Request :=
  let h := req.Header.Set "Accept" "application/json"
  let h := h.Set "User-Agent" ("github.com/sergeykuzmich/harvest-api-client v" ++ CLIENT_VERSION)
  let h := h.Set "Harvest-Account-Id" a.AccountID
  let h := h.Set "Authorization" ("Bearer " ++ a.AccessToken)
  { req with Header := h }

/-- The error returned for a response whose status is rejected: the body is read;
a read failure wraps the read error, otherwise a fresh error quotes URL and body. -/
def statusFailure (url : String) (res : Response) : Error :=
  match ReadAll res.Body with
  | (body, some err) =>
      .wrapf err ("HTTP request failure on " ++ url ++ ": " ++ body ++ " " ++ err.Error)
  | (body, none) =>
      .errorf ("HTTP request failure on " ++ url ++ ": " ++ body)

/-- The method `Get`: returns the error, the destination and the world. -/
def API.Get {τ π ω : Type} (env : Env τ π) (a : API ω) (path : String) (args : Arguments)
    (target : τ) (w : ω) : Ret × τ × ω :=
  let url := a.BaseURL ++ path
  let urlWithParams := url ++ "?" ++ env.Encode args
  match env.NewRequest "GET" urlWithParams none with
  | .error err => (.error (.wrapf err ("Invalid GET request " ++ url)), target, w)
  | .ok req =>
    let req := a.AddHeaders req
    match a.client with
    | none => (.panic, target, w)
    | some client =>
      match client w req with
      | (.error err, w) => (.error (.wrapf err ("HTTP request failure on " ++ url)), target, w)
      | (.ok res, w) =>
        if res.StatusCode ≠ 200 then
          (.error (statusFailure url res), target, w)
        else
          let d := env.Decode res.Body target
          match d.err with
          | some err =>
            let body := (ReadAll d.rest).1
            (.error (.wrapf err ("JSON decode failed on " ++ url ++ ": " ++ body)), d.target, w)
          | none => (.nil, d.target, w)

/-- What `PPP` does to the request after `AddHeaders`: it sets the content type. -/
def withContentType (req : Request) : Request :=
  { req with Header := req.Header.Set "Content-Type" "application/json; charset=utf-8" }

/-- The buffer `PPP` sends as request body: empty when `postData` is nil, else what the JSON
encoder wrote (its error is ignored). -/
def requestBuffer {τ π : Type} (env : Env τ π) (postData : Option π) : String :=
  match postData with
  | some p => env.Marshal p
  | none => ""

/-- The method `PPP`, shared by `Put`, `Patch` and `Post`; `postData` is `none` for nil. -/
def API.PPP {τ π ω : Type} (env : Env τ π) (a : API ω) (method path : String)
    (args : Arguments) (postData : Option π) (target : τ) (w : ω) : Ret × τ × ω :=
  let url := a.BaseURL ++ path
  let urlWithParams := url ++ "?" ++ env.Encode args
  let buffer := requestBuffer env postData
  match env.NewRequest method urlWithParams (some buffer) with
  | .error err => (.error (.wrapf err ("Invalid " ++ method ++ " request " ++ url)), target, w)
  | .ok req =>
    let req := withContentType (a.AddHeaders req)
    match a.client with
    | none => (.panic, target, w)
    | some client =>
      match client w req with
      | (.error err, w) => (.error (.wrapf err ("HTTP request failure on " ++ url)), target, w)
      | (.ok res, w) =>
        if res.StatusCode < 200 ∨ res.StatusCode > 299 then
          (.error (statusFailure url res), target, w)
        else
          let d := env.Decode res.Body target
          match d.err with
          | some err =>
            let body := (ReadAll d.rest).1
            (.error (.wrapf err ("JSON decode failed on POST to " ++ url ++ ": " ++ body)),
              d.target, w)
          | none => (.nil, d.target, w)

/-- The method `Put`. -/
def API.Put {τ π ω : Type} (env : Env τ π) (a : API ω) (path : String) (args : Arguments)
    (postData : Option π) (target : τ) (w : ω) : Ret × τ × ω :=
  a.PPP env "PUT" path args postData target w

/-- The method `Patch`. -/
def API.Patch {τ π ω : Type} (env : Env τ π) (a : API ω) (path : String) (args : Arguments)
    (postData : Option π) (target : τ) (w : ω) : Ret × τ × ω :=
  a.PPP env "PATCH" path args postData target w

/-- The method `Post`. -/
def API.Post {τ π ω : Type} (env : Env τ π) (a : API ω) (path : String) (args : Arguments)
    (postData : Option π) (target : τ) (w : ω) : Ret × τ × ω :=
  a.PPP env "POST" path args postData target w

/-- The method `Delete`: returns the error and the world. -/
def API.Delete {τ π ω : Type} (env : Env τ π) (a : API ω) (path : String) (args : Arguments)
    (w : ω) : Ret × ω :=
  let url := a.BaseURL ++ path
  let urlWithParams := url ++ "?" ++ env.Encode args
  match env.NewRequest "DELETE" urlWithParams none with
  | .error err => (.error (.wrapf err ("Invalid DELETE request " ++ url)), w)
  | .ok req =>
    let req := a.AddHeaders req
    match a.client with
    | none => (.panic, w)
    | some client =>
      match client w req with
      | (.error err, w) => (.error (.wrapf err ("HTTP request failure on " ++ url)), w)
      | (.ok res, w) =>
        if res.StatusCode ≠ 200 then
          (.error (statusFailure url res), w)
        else
          (.nil, w)

/-! ## Pagination -/

/-- What `GetPaginated`, its closure and the methods of the destination can reach: the
caller's map, the destination, and the rest of the world. -/
structure State (τ ω : Type) where
  args : Arguments
  target : τ
  world : ω

/-- The interface `Pageable`: the method `HasNextPage` of the caller's destination. It is the
caller's code: beside returning its value it may change anything the caller can reach. -/
structure Pageable (τ ω : Type) where
  HasNextPage : State τ ω → Bool × State τ ω

/-- The calls `GetPaginated` makes, as they happen. -/
inductive Event (τ : Type) where
  /-- the call `a.Get(path, args, target)`, with `args["page"]` at the call and what it returned -/
  | get (page : Option String) (ret : Ret)
  /-- the call `afterFetch()`, with the destination as it stood at the call -/
  | afterFetch (target : τ)
  /-- the call `target.HasNextPage()`, with its value -/
  | hasNextPage (value : Bool)
  deriving DecidableEq, Repr

/-- A finished or interrupted run: `ret = none` when the fuel ran out. -/
structure Run (τ ω : Type) where
  ret : Option Ret
  state : State τ ω
  trace : List (Event τ)

/-- The `for target.HasNextPage() { ... }` loop of `GetPaginated`; `page` is the local counter. -/
def GetPaginated.loop {τ π ω : Type} (env : Env τ π) (P : Pageable τ ω) (a : API ω) (path : String)
    (afterFetch : State τ ω → State τ ω) : Nat → Nat → State τ ω → Run τ ω
  | 0, _, s => { ret := none, state := s, trace := [] }
  | fuel + 1, page, s =>
    let next := P.HasNextPage s
    let s := next.2
    if next.1 then
      let page := page + 1
      let args := s.args.set "page" (toString page)
      match a.Get env path args s.target s.world with
      | (.nil, target, world) =>
        let s : State τ ω := { args := args, target := target, world := world }
        let r := GetPaginated.loop env P a path afterFetch fuel page (afterFetch s)
        { r with trace := .hasNextPage true :: .get (args "page") .nil :: .afterFetch target
                            :: r.trace }
      | (err, target, world) =>
        { ret := some err
          state := { args := args, target := target, world := world }
          trace := [.hasNextPage true, .get (args "page") err] }
    else
      { ret := some .nil, state := s, trace := [.hasNextPage false] }

/-- The method `GetPaginated`, with `fuel` bounding the evaluations of `HasNextPage`. -/
def API.GetPaginated {τ π ω : Type} (env : Env τ π) (P : Pageable τ ω) (a : API ω)
    (path : String) (afterFetch : State τ ω → State τ ω) (fuel : Nat) (s : State τ ω) :
    Run τ ω :=
  let page := 1
  let args := s.args.set "page" (toString page)
  match a.Get env path args s.target s.world with
  | (.nil, target, world) =>
    let s : State τ ω := { args := args, target := target, world := world }
    let r := GetPaginated.loop env P a path afterFetch fuel page (afterFetch s)
    { r with trace := .get (args "page") .nil :: .afterFetch target :: r.trace }
  | (err, target, world) =>
    { ret := some err
      state := { args := args, target := target, world := world }
      trace := [.get (args "page") err] }

/-! ## Reading a trace -/

/-- The `args["page"]` values of the `Get` calls of a trace, in order. -/
def getPages {τ : Type} : List (Event τ) → List (Option String)
  | [] => []
  | .get page _ :: t => page :: getPages t
  | _ :: t => getPages t

/-- The destination contents seen by the `afterFetch` calls of a trace, in order. -/
def afterFetchTargets {τ : Type} : List (Event τ) → List τ
  | [] => []
  | .afterFetch target :: t => target :: afterFetchTargets t
  | _ :: t => afterFetchTargets t

/-! ## The run as the callers of `GetPaginated` describe it -/

/-- Fetching page `i` from state `s`: `args["page"]` is set to `i`, then `Get` is called. -/
def fetchPage {τ π ω : Type} (env : Env τ π) (a : API ω) (path : String) (i : Nat)
    (s : State τ ω) : Ret × State τ ω :=
  let args := s.args.set "page" (toString i)
  let r := a.Get env path args s.target s.world
  (r.1, { args := args, target := r.2.1, world := r.2.2 })

/-- The state in which the `Get` for page `i + 1` is issued, given the state `s` in which
page `i` left the caller: before page 1 nothing has run; before any later page
`HasNextPage` has been evaluated. -/
def beforeFetch {τ ω : Type} (P : Pageable τ ω) : Nat → State τ ω → State τ ω
  | 0, s => s
  | _ + 1, s => (P.HasNextPage s).2

/-- The state after pages `1..i` have been fetched and handed to `afterFetch`. -/
def pageState {τ π ω : Type} (env : Env τ π) (P : Pageable τ ω) (a : API ω) (path : String)
    (afterFetch : State τ ω → State τ ω) (s : State τ ω) : Nat → State τ ω
  | 0 => s
  | i + 1 =>
    afterFetch (fetchPage env a path (i + 1)
      (beforeFetch P i (pageState env P a path afterFetch s i))).2

/-! ## Mock collaborators for concrete runs -/

/-- A page envelope: the items of the page and the number of the next page. -/
structure Pages where
  items : List String
  next_page : Option Nat
  deriving DecidableEq, Repr

/-- The envelope has a next page when `next_page` is set; asking changes nothing. -/
def Pages.pageable : Pageable Pages (List String) :=
  { HasNextPage := fun s => (s.target.next_page.isSome, s) }

/-- An envelope whose `HasNextPage` also writes to the caller's map: it sets `per_page` and
`page`. -/
def Pages.meddling : Pageable Pages (List String) :=
  { HasNextPage := fun s =>
      (s.target.next_page.isSome, { s with args := (s.args.set "per_page" "50").set "page" "99" }) }

/-- A stand-in for the JSON decoder on the three bodies the examples use: the two
page envelopes are decoded field by field, anything else (the empty body
included) fails and leaves the destination alone. -/
def mockDecode (b : Body) (target : Pages) : Decoded Pages :=
  if b.data = "\x7b\"items\":[\"a\"],\"next_page\":2\x7d" then
    { target := { items := ["a"], next_page := some 2 }, err := none, rest := ⟨"", none⟩ }
  else if b.data = "\x7b\"items\":[\"b\"],\"next_page\":null\x7d" then
    { target := { items := ["b"], next_page := none }, err := none, rest := ⟨"", none⟩ }
  else if b.data = "" then
    { target := target, err := some (.lib "EOF"), rest := ⟨"", none⟩ }
  else
    { target := target, err := some (.lib "invalid character"), rest := ⟨"", none⟩ }

/-- A stand-in for `ToURLValues().Encode()` on the keys the examples use: `from`, `page` and
`per_page` are written as `key=value`, sorted by key and joined by `&`, as `url.Values.Encode`
does; none of the values used needs escaping. -/
def mockEncode (args : Arguments) : String :=
  "&".intercalate
    (["from", "page", "per_page"].filterMap (fun k => (args k).map (fun v => k ++ "=" ++ v)))

/-- A stand-in environment: requests are always built, with an empty header. -/
def mockEnv : Env Pages Unit :=
  { Encode := mockEncode
    NewRequest := fun method url body =>
      .ok { Method := method, URL := url, Header := fun _ => none, Body := body }
    Decode := mockDecode
    Marshal := fun _ => "null\n" }

/-- A transport that answers every request with the same response. -/
def constClient {ω : Type} (res : Response) : HTTPClient ω := fun w _ => (.ok res, w)

/-- A client as `HarvestClient` builds it, on a transport with one fixed answer. -/
def mockAPI (status : Int) (body : String) : API Unit :=
  HarvestClient (constClient ⟨status, ⟨body, none⟩⟩) "123" "tok"

/-- A `GET` request without headers. -/
def plainGet : Request :=
  { Method := "GET", URL := "https://api.harvestapp.com/v2/users", Header := fun _ => none,
    Body := none }

/-- A `DELETE` request that already carries an `Authorization` and an `X-Trace` header. -/
def staleDelete : Request :=
  { Method := "DELETE", URL := "https://api.harvestapp.com/v2/projects/7",
    Header := fun k => if k = "Authorization" then some ["Basic old", "Basic older"]
                       else if k = "X-Trace" then some ["1"] else none,
    Body := none }

/-- The empty page envelope. -/
def Pages.zero : Pages := { items := [], next_page := none }

/-- A server with two pages of `/time_entries`, which ignores the `from` and `per_page`
parameters; any other request is answered 404. -/
def twoPageClient : HTTPClient (List String) := fun w req =>
  if req.URL ∈ ["https://api.harvestapp.com/v2/time_entries?page=1",
                "https://api.harvestapp.com/v2/time_entries?from=2024-01-01&page=1"] then
    (.ok ⟨200, ⟨"\x7b\"items\":[\"a\"],\"next_page\":2\x7d", none⟩⟩, w)
  else if req.URL ∈ ["https://api.harvestapp.com/v2/time_entries?page=2",
                     "https://api.harvestapp.com/v2/time_entries?from=2024-01-01&page=2",
                     "https://api.harvestapp.com/v2/time_entries?page=2&per_page=50"] then
    (.ok ⟨200, ⟨"\x7b\"items\":[\"b\"],\"next_page\":null\x7d", none⟩⟩, w)
  else
    (.ok ⟨404, ⟨"", none⟩⟩, w)

/-- A server whose first page announces a second one, and whose connection then drops. -/
def droppingClient : HTTPClient (List String) := fun w req =>
  if req.URL = "https://api.harvestapp.com/v2/time_entries?page=1" then
    (.ok ⟨200, ⟨"\x7b\"items\":[\"a\"],\"next_page\":2\x7d", none⟩⟩, w)
  else
    (.error (.lib "connection reset"), w)

/-- The callback of the example: it appends the items of the destination to the caller's list. -/
def accumulate (s : State Pages (List String)) : State Pages (List String) :=
  { s with world := s.world ++ s.target.items }

/-- A callback that also writes to the caller's map: it sets `per_page` and `page`. -/
def meddle (s : State Pages (List String)) : State Pages (List String) :=
  { s with args := (s.args.set "per_page" "50").set "page" "99" }

/-- The caller's state before the call: an empty map, an empty destination, nothing accumulated. -/
def start : State Pages (List String) := { args := fun _ => none, target := Pages.zero, world := [] }

/-- The client of the example scenario, on the two-page server. -/
def twoPageAPI : API (List String) := HarvestClient twoPageClient "123" "tok"

/-- The same client on the server whose connection drops after page 1. -/
def droppingAPI : API (List String) := HarvestClient droppingClient "123" "tok"

/-- The caller's map of the witness: a `from` filter and a stale `page`. -/
def filtered : State Pages (List String) :=
  { args := fun k => if k = "from" then some "2024-01-01" else if k = "page" then some "7"
                     else none,
    target := Pages.zero, world := [] }

/-! ## Construction and headers -/

/-- C8. For every account identifier and access token, `HarvestClient` returns a client
whose `BaseURL` is `https://api.harvestapp.com/v2`, whose `AccountID` and `AccessToken`
are the arguments verbatim, and whose HTTP client is set (to `http.DefaultClient`). -/
theorem harvestClient_fields {ω : Type} (DefaultClient : HTTPClient ω)
    (accountID accessToken : String) :
    (HarvestClient DefaultClient accountID accessToken).BaseURL = "https://api.harvestapp.com/v2"
    ∧ (HarvestClient DefaultClient accountID accessToken).AccountID = accountID
    ∧ (HarvestClient DefaultClient accountID accessToken).AccessToken = accessToken
    ∧ (HarvestClient DefaultClient accountID accessToken).client = some DefaultClient
    ∧ (HarvestClient DefaultClient accountID accessToken).client ≠ none := by
  refine ⟨?_, rfl, rfl, rfl, ?_⟩
  · show "https://" ++ HARVEST_DOMAIN ++ "/" ++ HARVEST_API_VERSION = _
    decide
  · simp [HarvestClient]

/-- C9. Two requests, whatever their method, URL and previous headers, to which clients
with the same account identifier and access token apply `AddHeaders`, end with the same
`Accept`, `User-Agent`, `Harvest-Account-Id` and `Authorization` entries, namely
`application/json`, the fixed client string, the account identifier and `Bearer ` followed
by the token; and applying `AddHeaders` twice gives the same request as applying it once. -/
theorem addHeaders_fixed {ω : Type} (a₁ a₂ : API ω) (r₁ r₂ : Request)
    (hid : a₁.AccountID = a₂.AccountID) (htok : a₁.AccessToken = a₂.AccessToken) :
    (a₁.AddHeaders r₁).Header "Accept" = some ["application/json"]
    ∧ (a₁.AddHeaders r₁).Header "User-Agent"
        = some ["github.com/sergeykuzmich/harvest-api-client v1.1.2"]
    ∧ (a₁.AddHeaders r₁).Header "Harvest-Account-Id" = some [a₁.AccountID]
    ∧ (a₁.AddHeaders r₁).Header "Authorization" = some ["Bearer " ++ a₁.AccessToken]
    ∧ (a₂.AddHeaders r₂).Header "Accept" = (a₁.AddHeaders r₁).Header "Accept"
    ∧ (a₂.AddHeaders r₂).Header "User-Agent" = (a₁.AddHeaders r₁).Header "User-Agent"
    ∧ (a₂.AddHeaders r₂).Header "Harvest-Account-Id"
        = (a₁.AddHeaders r₁).Header "Harvest-Account-Id"
    ∧ (a₂.AddHeaders r₂).Header "Authorization" = (a₁.AddHeaders r₁).Header "Authorization"
    ∧ a₁.AddHeaders (a₁.AddHeaders r₁) = a₁.AddHeaders r₁ := by
  have hv : "github.com/sergeykuzmich/harvest-api-client v" ++ CLIENT_VERSION
      = "github.com/sergeykuzmich/harvest-api-client v1.1.2" := by decide
  refine ⟨?_, ?_, ?_, ?_, ?_, ?_, ?_, ?_, ?_⟩
  · simp [API.AddHeaders, Header.Set]
  · simp [API.AddHeaders, Header.Set, hv]
  · simp [API.AddHeaders, Header.Set]
  · simp [API.AddHeaders, Header.Set]
  · simp [API.AddHeaders, Header.Set]
  · simp [API.AddHeaders, Header.Set]
  · simp [API.AddHeaders, Header.Set, hid]
  · simp [API.AddHeaders, Header.Set, htok]
  · simp only [API.AddHeaders]
    congr 1
    funext x
    simp only [Header.Set]
    split_ifs <;> rfl

/-- Witness of C9: a bare `GET` request and a `DELETE` request with stale headers, stamped
by two clients with the credentials `123` / `tok` on different transports. -/
theorem addHeaders_fixed_witness :
    (mockAPI 200 "").AccountID = (mockAPI 404 "x").AccountID
    ∧ (mockAPI 200 "").AccessToken = (mockAPI 404 "x").AccessToken
    ∧ ((mockAPI 404 "x").AddHeaders staleDelete).Header "Authorization"
        = ((mockAPI 200 "").AddHeaders plainGet).Header "Authorization"
    ∧ ((mockAPI 200 "").AddHeaders plainGet).Header "Authorization" = some ["Bearer tok"]
    ∧ ((mockAPI 404 "x").AddHeaders staleDelete).Header "X-Trace" = some ["1"] :=
  ⟨rfl, rfl,
    (addHeaders_fixed (mockAPI 200 "") (mockAPI 404 "x") plainGet staleDelete rfl rfl).2.2.2.2.2.2.2.1,
    by decide, by decide⟩

/-! ## Status checks of the single-request verbs -/

/-- C6. When the `DELETE` request is built and the transport answers with `res`, `Delete`
returns nil exactly when the status is 200; on status 200 the result is nil whatever the
body is, and the decoder plays no part; on any other status the result is the HTTP
failure error built from the URL and the body. -/
theorem delete_nil_iff_200 {τ π ω : Type} (env : Env τ π) (a : API ω) (path : String)
    (args : Arguments) (w w' : ω) (client : HTTPClient ω) (req : Request) (res : Response)
    (hreq : env.NewRequest "DELETE" (a.BaseURL ++ path ++ "?" ++ env.Encode args) none = .ok req)
    (hclient : a.client = some client)
    (hdo : client w (a.AddHeaders req) = (.ok res, w')) :
    ((a.Delete env path args w).1 = .nil ↔ res.StatusCode = 200)
    ∧ (res.StatusCode = 200 → a.Delete env path args w = (.nil, w'))
    ∧ (res.StatusCode ≠ 200 →
        a.Delete env path args w = (.error (statusFailure (a.BaseURL ++ path) res), w'))
    ∧ (res.StatusCode ≠ 200 → res.Body.err = none →
        (a.Delete env path args w).1
          = .error (.errorf ("HTTP request failure on " ++ (a.BaseURL ++ path) ++ ": "
                              ++ res.Body.data)))
    ∧ (∀ decode : Body → τ → Decoded τ,
        a.Delete { env with Decode := decode } path args w = a.Delete env path args w) := by
  have hrun : a.Delete env path args w
      = if res.StatusCode ≠ 200 then (.error (statusFailure (a.BaseURL ++ path) res), w')
        else (.nil, w') := by
    simp only [API.Delete, hreq, hclient, hdo]
  refine ⟨?_, ?_, ?_, ?_, ?_⟩
  · rw [hrun]
    by_cases h : res.StatusCode = 200 <;> simp [h]
  · intro h
    rw [hrun]
    simp [h]
  · intro h
    rw [hrun]
    simp [h]
  · intro h hb
    rw [hrun]
    simp [h, statusFailure, ReadAll, hb]
  · intro decode
    rfl

/-- Witness of C6: a `DELETE` answered with status 200 and a body that is no JSON. -/
theorem delete_nil_iff_200_witness :
    ((mockAPI 200 "<html>").Delete mockEnv "/projects/7" (fun _ => none) ()).1 = .nil
    ∧ (200 : Int) = 200 :=
  ⟨((delete_nil_iff_200 mockEnv (mockAPI 200 "<html>") "/projects/7" (fun _ => none) () ()
      (constClient ⟨200, ⟨"<html>", none⟩⟩) _ ⟨200, ⟨"<html>", none⟩⟩ rfl rfl rfl).1).2 rfl, rfl⟩

/-- C5, as the code has it. When the `GET` request is built and the transport answers with
a status other than 200 (201 and 204 included), `Get` returns the HTTP failure error, whose
message quotes the URL and the body text read from the response (a failed read wraps the
read error); the error is the same for every non-200 status, so it does not carry the
status code; the destination is left as it was and the decoder plays no part. -/
theorem get_non200_error {τ π ω : Type} (env : Env τ π) (a : API ω) (path : String)
    (args : Arguments) (target : τ) (w w' : ω) (client : HTTPClient ω) (req : Request)
    (res : Response)
    (hreq : env.NewRequest "GET" (a.BaseURL ++ path ++ "?" ++ env.Encode args) none = .ok req)
    (hclient : a.client = some client)
    (hdo : client w (a.AddHeaders req) = (.ok res, w'))
    (hstatus : res.StatusCode ≠ 200) :
    a.Get env path args target w = (.error (statusFailure (a.BaseURL ++ path) res), target, w')
    ∧ (res.Body.err = none →
        statusFailure (a.BaseURL ++ path) res
          = .errorf ("HTTP request failure on " ++ (a.BaseURL ++ path) ++ ": " ++ res.Body.data))
    ∧ (∀ e, res.Body.err = some e →
        statusFailure (a.BaseURL ++ path) res
          = .wrapf e ("HTTP request failure on " ++ (a.BaseURL ++ path) ++ ": " ++ res.Body.data
                        ++ " " ++ e.Error))
    ∧ (∀ code : Int, statusFailure (a.BaseURL ++ path) { res with StatusCode := code }
        = statusFailure (a.BaseURL ++ path) res)
    ∧ (∀ decode : Body → τ → Decoded τ,
        a.Get { env with Decode := decode } path args target w = a.Get env path args target w) := by
  have hrun : ∀ decode : Body → τ → Decoded τ,
      a.Get { env with Decode := decode } path args target w
        = (.error (statusFailure (a.BaseURL ++ path) res), target, w') := by
    intro decode
    simp only [API.Get, hreq, hclient, hdo]
    simp [hstatus]
  refine ⟨hrun env.Decode, ?_, ?_, ?_, ?_⟩
  · intro hb
    simp [statusFailure, ReadAll, hb]
  · intro e hb
    simp [statusFailure, ReadAll, hb]
  · intro code
    rfl
  · intro decode
    rw [hrun decode]
    exact (hrun env.Decode).symm

/-- Witness of C5 as amended: a `GET` answered with status 404 and the body `not found`. -/
theorem get_non200_error_witness :
    (404 : Int) ≠ 200
    ∧ (mockAPI 404 "not found").Get mockEnv "/users" (fun _ => none) Pages.zero ()
        = (.error (statusFailure "https://api.harvestapp.com/v2/users" ⟨404, ⟨"not found", none⟩⟩),
            Pages.zero, ()) :=
  ⟨by decide,
    (get_non200_error mockEnv (mockAPI 404 "not found") "/users" (fun _ => none) Pages.zero () ()
      (constClient ⟨404, ⟨"not found", none⟩⟩) _ ⟨404, ⟨"not found", none⟩⟩ rfl rfl rfl
      (by decide)).1⟩

/-- Counterexample to C5 as stated: answered with status 404 or with status 500 and the same
body, `Get` returns one and the same error, whose message is the URL and the body; no
function of the error gives back the status code. -/
theorem get_error_omits_status :
    ((mockAPI 404 "upstream").Get mockEnv "/users" (fun _ => none) Pages.zero ()).1
      = .error (.errorf "HTTP request failure on https://api.harvestapp.com/v2/users: upstream")
    ∧ ((mockAPI 500 "upstream").Get mockEnv "/users" (fun _ => none) Pages.zero ()).1
      = .error (.errorf "HTTP request failure on https://api.harvestapp.com/v2/users: upstream")
    ∧ ¬ ∃ statusOf : Error → Int, ∀ code : Int, code ≠ 200 → ∀ e : Error,
        ((mockAPI code "upstream").Get mockEnv "/users" (fun _ => none) Pages.zero ()).1
          = .error e → statusOf e = code := by
  have h404 : ((mockAPI 404 "upstream").Get mockEnv "/users" (fun _ => none) Pages.zero ()).1
      = .error (.errorf "HTTP request failure on https://api.harvestapp.com/v2/users: upstream") := by
    decide
  have h500 : ((mockAPI 500 "upstream").Get mockEnv "/users" (fun _ => none) Pages.zero ()).1
      = .error (.errorf "HTTP request failure on https://api.harvestapp.com/v2/users: upstream") := by
    decide
  refine ⟨h404, h500, ?_⟩
  rintro ⟨statusOf, h⟩
  have h1 := h 404 (by decide) _ h404
  have h2 := h 500 (by decide) _ h500
  rw [h1] at h2
  exact absurd h2 (by decide)

/-- C4, as the code has it. `Put`, `Patch` and `Post` are `PPP` with their method name.
When the request is built and the transport answers with `res`: for a status in 200..299,
`PPP` returns nil exactly when the body decodes into the destination, and the decode error
(wrapped) otherwise; for a status outside 200..299 it returns the HTTP failure error. -/
theorem ppp_status_range {τ π ω : Type} (env : Env τ π) (a : API ω) (method path : String)
    (args : Arguments) (postData : Option π) (target : τ) (w w' : ω) (client : HTTPClient ω)
    (req : Request) (res : Response)
    (hreq : env.NewRequest method (a.BaseURL ++ path ++ "?" ++ env.Encode args)
              (some (requestBuffer env postData)) = .ok req)
    (hclient : a.client = some client)
    (hdo : client w (withContentType (a.AddHeaders req)) = (.ok res, w')) :
    (200 ≤ res.StatusCode → res.StatusCode ≤ 299 →
        (env.Decode res.Body target).err = none →
        a.PPP env method path args postData target w
          = (.nil, (env.Decode res.Body target).target, w'))
    ∧ (200 ≤ res.StatusCode → res.StatusCode ≤ 299 →
        ∀ e, (env.Decode res.Body target).err = some e →
        a.PPP env method path args postData target w
          = (.error (.wrapf e ("JSON decode failed on POST to " ++ (a.BaseURL ++ path) ++ ": "
                                ++ (env.Decode res.Body target).rest.data)),
              (env.Decode res.Body target).target, w'))
    ∧ (200 ≤ res.StatusCode → res.StatusCode ≤ 299 →
        ((a.PPP env method path args postData target w).1 = .nil
          ↔ (env.Decode res.Body target).err = none))
    ∧ (res.StatusCode < 200 ∨ 299 < res.StatusCode →
        a.PPP env method path args postData target w
          = (.error (statusFailure (a.BaseURL ++ path) res), target, w'))
    ∧ a.Put env path args postData target w = a.PPP env "PUT" path args postData target w
    ∧ a.Patch env path args postData target w = a.PPP env "PATCH" path args postData target w
    ∧ a.Post env path args postData target w = a.PPP env "POST" path args postData target w := by
  have hrun : a.PPP env method path args postData target w
      = if res.StatusCode < 200 ∨ res.StatusCode > 299 then
          (.error (statusFailure (a.BaseURL ++ path) res), target, w')
        else
          match (env.Decode res.Body target).err with
          | some err =>
            (.error (.wrapf err ("JSON decode failed on POST to " ++ (a.BaseURL ++ path) ++ ": "
                                  ++ (ReadAll (env.Decode res.Body target).rest).1)),
              (env.Decode res.Body target).target, w')
          | none => (.nil, (env.Decode res.Body target).target, w') := by
    simp only [API.PPP, hreq, hclient, hdo]
  have hin : ∀ {s : Int}, 200 ≤ s → s ≤ 299 → ¬ (s < 200 ∨ s > 299) := by
    intro s h1 h2
    omega
  refine ⟨?_, ?_, ?_, ?_, rfl, rfl, rfl⟩
  · intro h1 h2 hd
    rw [hrun, if_neg (hin h1 h2), hd]
  · intro h1 h2 e hd
    rw [hrun, if_neg (hin h1 h2), hd]
    rfl
  · intro h1 h2
    rw [hrun, if_neg (hin h1 h2)]
    cases hd : (env.Decode res.Body target).err <;> simp
  · intro h
    rw [hrun, if_pos h]

/-- Witness of C4 as amended: a `POST` answered with status 201 and a page envelope. -/
theorem ppp_status_range_witness :
    (mockAPI 201 "\x7b\"items\":[\"a\"],\"next_page\":2\x7d").Post mockEnv "/time_entries"
        (fun _ => none) (some ()) Pages.zero ()
      = (.nil, { items := ["a"], next_page := some 2 }, ()) :=
  ((ppp_status_range mockEnv (mockAPI 201 "\x7b\"items\":[\"a\"],\"next_page\":2\x7d") "POST"
      "/time_entries" (fun _ => none) (some ()) Pages.zero () ()
      (constClient ⟨201, ⟨"\x7b\"items\":[\"a\"],\"next_page\":2\x7d", none⟩⟩) _
      ⟨201, ⟨"\x7b\"items\":[\"a\"],\"next_page\":2\x7d", none⟩⟩ rfl rfl rfl).1
    (by decide) (by decide) (by decide))

/-- Counterexample to C4 as stated: the request is built and the transport succeeds, the
status is 204 (resp. 200), and `Post` (resp. `Put`) still returns an error, because the
empty body (resp. a body that is no JSON) does not decode. -/
theorem post_in_range_decode_error :
    (mockAPI 204 "").Post mockEnv "/time_entries" (fun _ => none) (some ()) Pages.zero ()
      = (.error (.wrapf (.lib "EOF")
            "JSON decode failed on POST to https://api.harvestapp.com/v2/time_entries: "),
          Pages.zero, ())
    ∧ ((mockAPI 200 "<html>").Put mockEnv "/time_entries/1" (fun _ => none) none Pages.zero ()).1
      ≠ .nil := by
  constructor <;> decide

/-! ## Unfolding the pagination loop -/

theorem set_page_get (args : Arguments) (v : String) : (args.set "page" v) "page" = some v := by
  simp [Arguments.set]

theorem set_other_get (args : Arguments) (v k : String) (hk : k ≠ "page") :
    (args.set "page" v) k = args k := by
  simp [Arguments.set, hk]

theorem loop_zero {τ π ω : Type} (env : Env τ π) (P : Pageable τ ω) (a : API ω)
    (path : String) (afterFetch : State τ ω → State τ ω) (page : Nat) (s : State τ ω) :
    GetPaginated.loop env P a path afterFetch 0 page s = { ret := none, state := s, trace := [] } :=
  rfl

theorem loop_stop {τ π ω : Type} (env : Env τ π) (P : Pageable τ ω) (a : API ω)
    (path : String) (afterFetch : State τ ω → State τ ω) (fuel page : Nat) (s : State τ ω)
    (h : (P.HasNextPage s).1 = false) :
    GetPaginated.loop env P a path afterFetch (fuel + 1) page s
      = { ret := some .nil, state := (P.HasNextPage s).2, trace := [.hasNextPage false] } := by
  rw [GetPaginated.loop]
  simp [h]

theorem loop_ok {τ π ω : Type} (env : Env τ π) (P : Pageable τ ω) (a : API ω)
    (path : String) (afterFetch : State τ ω → State τ ω) (fuel page : Nat) (s : State τ ω)
    (h : (P.HasNextPage s).1 = true)
    (hg : (fetchPage env a path (page + 1) (P.HasNextPage s).2).1 = .nil) :
    GetPaginated.loop env P a path afterFetch (fuel + 1) page s
      = { GetPaginated.loop env P a path afterFetch fuel (page + 1)
            (afterFetch (fetchPage env a path (page + 1) (P.HasNextPage s).2).2) with
          trace := .hasNextPage true :: .get (some (toString (page + 1))) .nil
            :: .afterFetch (fetchPage env a path (page + 1) (P.HasNextPage s).2).2.target
            :: (GetPaginated.loop env P a path afterFetch fuel (page + 1)
                  (afterFetch (fetchPage env a path (page + 1) (P.HasNextPage s).2).2)).trace } := by
  rw [GetPaginated.loop]
  simp only [fetchPage] at hg ⊢
  rcases hr : a.Get env path ((P.HasNextPage s).2.args.set "page" (toString (page + 1)))
      (P.HasNextPage s).2.target (P.HasNextPage s).2.world with ⟨ret, t, w⟩
  rw [hr] at hg
  simp only at hg
  subst hg
  simp [h, hr, set_page_get]

theorem loop_err {τ π ω : Type} (env : Env τ π) (P : Pageable τ ω) (a : API ω)
    (path : String) (afterFetch : State τ ω → State τ ω) (fuel page : Nat) (s : State τ ω)
    (h : (P.HasNextPage s).1 = true)
    (hg : (fetchPage env a path (page + 1) (P.HasNextPage s).2).1 ≠ .nil) :
    GetPaginated.loop env P a path afterFetch (fuel + 1) page s
      = { ret := some (fetchPage env a path (page + 1) (P.HasNextPage s).2).1
          state := (fetchPage env a path (page + 1) (P.HasNextPage s).2).2
          trace := [.hasNextPage true,
                    .get (some (toString (page + 1)))
                      (fetchPage env a path (page + 1) (P.HasNextPage s).2).1] } := by
  rw [GetPaginated.loop]
  simp only [fetchPage] at hg ⊢
  rcases hr : a.Get env path ((P.HasNextPage s).2.args.set "page" (toString (page + 1)))
      (P.HasNextPage s).2.target (P.HasNextPage s).2.world with ⟨ret, t, w⟩
  rw [hr] at hg
  simp only at hg
  cases ret <;> simp_all [set_page_get]

theorem getPaginated_ok {τ π ω : Type} (env : Env τ π) (P : Pageable τ ω) (a : API ω)
    (path : String) (afterFetch : State τ ω → State τ ω) (fuel : Nat) (s : State τ ω)
    (hg : (fetchPage env a path 1 s).1 = .nil) :
    a.GetPaginated env P path afterFetch fuel s
      = { GetPaginated.loop env P a path afterFetch fuel 1
            (afterFetch (fetchPage env a path 1 s).2) with
          trace := .get (some (toString 1)) .nil
            :: .afterFetch (fetchPage env a path 1 s).2.target
            :: (GetPaginated.loop env P a path afterFetch fuel 1
                  (afterFetch (fetchPage env a path 1 s).2)).trace } := by
  rw [API.GetPaginated]
  simp only [fetchPage] at hg ⊢
  rcases hr : a.Get env path (s.args.set "page" (toString 1)) s.target s.world
    with ⟨ret, t, w⟩
  rw [hr] at hg
  simp only at hg
  subst hg
  simp [hr, set_page_get]

theorem getPaginated_err {τ π ω : Type} (env : Env τ π) (P : Pageable τ ω) (a : API ω)
    (path : String) (afterFetch : State τ ω → State τ ω) (fuel : Nat) (s : State τ ω)
    (hg : (fetchPage env a path 1 s).1 ≠ .nil) :
    a.GetPaginated env P path afterFetch fuel s
      = { ret := some (fetchPage env a path 1 s).1
          state := (fetchPage env a path 1 s).2
          trace := [.get (some (toString 1)) (fetchPage env a path 1 s).1] } := by
  rw [API.GetPaginated]
  simp only [fetchPage] at hg ⊢
  rcases hr : a.Get env path (s.args.set "page" (toString 1)) s.target s.world
    with ⟨ret, t, w⟩
  rw [hr] at hg
  simp only at hg
  cases ret <;> simp_all [set_page_get]

/-! ## Runs in which every page arrives -/

theorem loop_nominal {τ π ω : Type} (env : Env τ π) (P : Pageable τ ω) (a : API ω)
    (path : String) (afterFetch : State τ ω → State τ ω) (s₀ : State τ ω) (k : Nat)
    (hget : ∀ i, 1 ≤ i → i ≤ k →
      (fetchPage env a path i
        (beforeFetch P (i - 1) (pageState env P a path afterFetch s₀ (i - 1)))).1 = .nil)
    (hnext : ∀ i, 1 ≤ i → i < k →
      (P.HasNextPage (pageState env P a path afterFetch s₀ i)).1 = true)
    (hlast : (P.HasNextPage (pageState env P a path afterFetch s₀ k)).1 = false) :
    ∀ m j fuel, j + 1 + m = k → m < fuel →
      (GetPaginated.loop env P a path afterFetch fuel (j + 1)
          (pageState env P a path afterFetch s₀ (j + 1))).ret = some .nil
      ∧ getPages (GetPaginated.loop env P a path afterFetch fuel (j + 1)
          (pageState env P a path afterFetch s₀ (j + 1))).trace
          = (List.range' (j + 2) m).map (fun i => some (toString i))
      ∧ (afterFetchTargets (GetPaginated.loop env P a path afterFetch fuel (j + 1)
          (pageState env P a path afterFetch s₀ (j + 1))).trace).length = m := by
  intro m
  induction m with
  | zero =>
    intro j fuel hj hfuel
    obtain ⟨f, rfl⟩ : ∃ f, fuel = f + 1 := ⟨fuel - 1, by omega⟩
    have hjk : k = j + 1 := by omega
    subst hjk
    rw [loop_stop env P a path afterFetch f (j + 1) _ hlast]
    simp [getPages, afterFetchTargets]
  | succ m ih =>
    intro j fuel hj hfuel
    obtain ⟨f, rfl⟩ : ∃ f, fuel = f + 1 := ⟨fuel - 1, by omega⟩
    have hn := hnext (j + 1) (by omega) (by omega)
    have hg := hget (j + 1 + 1) (by omega) (by omega)
    simp only [Nat.add_sub_cancel] at hg
    have hg' : (fetchPage env a path (j + 1 + 1)
        (P.HasNextPage (pageState env P a path afterFetch s₀ (j + 1))).2).1 = .nil := hg
    rw [loop_ok env P a path afterFetch f (j + 1) _ hn hg']
    have hst : afterFetch (fetchPage env a path (j + 1 + 1)
          (P.HasNextPage (pageState env P a path afterFetch s₀ (j + 1))).2).2
        = pageState env P a path afterFetch s₀ (j + 1 + 1) := rfl
    rw [hst]
    obtain ⟨h1, h2, h3⟩ := ih (j + 1) f (by omega) (by omega)
    refine ⟨h1, ?_, ?_⟩
    · simp only [getPages, h2, List.range'_succ, List.map_cons]
    · simp only [afterFetchTargets, List.length_cons, h3]

/-- C1. For every `k ≥ 1`: if the `Get` calls for pages `1..k` succeed and `HasNextPage` is
true after pages `1..k-1` and false after page `k`, then `GetPaginated` (with any fuel of at
least `k`) terminates and returns nil, having issued exactly `k` `Get` calls with
`args["page"]` equal to `"1"`, `"2"`, ..., `"k"` in that order and having invoked
`afterFetch` exactly `k` times. -/
theorem getPaginated_all_pages {τ π ω : Type} (env : Env τ π) (P : Pageable τ ω) (a : API ω)
    (path : String) (afterFetch : State τ ω → State τ ω) (s₀ : State τ ω) (k fuel : Nat)
    (hk : 1 ≤ k)
    (hget : ∀ i, 1 ≤ i → i ≤ k →
      (fetchPage env a path i
        (beforeFetch P (i - 1) (pageState env P a path afterFetch s₀ (i - 1)))).1 = .nil)
    (hnext : ∀ i, 1 ≤ i → i < k →
      (P.HasNextPage (pageState env P a path afterFetch s₀ i)).1 = true)
    (hlast : (P.HasNextPage (pageState env P a path afterFetch s₀ k)).1 = false)
    (hfuel : k ≤ fuel) :
    (a.GetPaginated env P path afterFetch fuel s₀).ret = some .nil
    ∧ getPages (a.GetPaginated env P path afterFetch fuel s₀).trace
        = (List.range' 1 k).map (fun i => some (toString i))
    ∧ (getPages (a.GetPaginated env P path afterFetch fuel s₀).trace).length = k
    ∧ (afterFetchTargets (a.GetPaginated env P path afterFetch fuel s₀).trace).length = k := by
  have hg := hget 1 (le_refl 1) hk
  have hg' : (fetchPage env a path 1 s₀).1 = .nil := hg
  rw [getPaginated_ok env P a path afterFetch fuel s₀ hg']
  have hst : afterFetch (fetchPage env a path 1 s₀).2
      = pageState env P a path afterFetch s₀ (0 + 1) := rfl
  rw [hst]
  obtain ⟨h1, h2, h3⟩ := loop_nominal env P a path afterFetch s₀ k hget hnext hlast
    (k - 1) 0 fuel (by omega) (by omega)
  obtain ⟨k', rfl⟩ : ∃ k', k = k' + 1 := ⟨k - 1, by omega⟩
  simp only [Nat.add_sub_cancel, Nat.zero_add] at h1 h2 h3 ⊢
  have hpages : getPages (Event.get (some (toString 1)) Ret.nil
        :: Event.afterFetch (fetchPage env a path 1 s₀).2.target
        :: (GetPaginated.loop env P a path afterFetch fuel 1
              (pageState env P a path afterFetch s₀ 1)).trace)
      = (List.range' 1 (k' + 1)).map (fun i => some (toString i)) := by
    simp only [getPages, h2, List.range'_succ, List.map_cons]
  refine ⟨h1, hpages, ?_, ?_⟩
  · rw [hpages]
    simp
  · simp only [afterFetchTargets, List.length_cons, h3]

/-- Witness of C1: the two-page server, `k = 2`, fuel 2. -/
theorem getPaginated_all_pages_witness :
    (twoPageAPI.GetPaginated mockEnv Pages.pageable "/time_entries" accumulate 2 start).ret
      = some .nil
    ∧ getPages
        (twoPageAPI.GetPaginated mockEnv Pages.pageable "/time_entries" accumulate 2 start).trace
      = [some "1", some "2"]
    ∧ (afterFetchTargets
        (twoPageAPI.GetPaginated mockEnv Pages.pageable "/time_entries" accumulate 2 start).trace
        ).length = 2 := by
  have h := getPaginated_all_pages mockEnv Pages.pageable twoPageAPI "/time_entries" accumulate
    start 2 2 (by decide)
    (by intro i h1 h2; interval_cases i <;> decide)
    (by intro i h1 h2; interval_cases i; decide)
    (by decide) (by decide)
  exact ⟨h.1, h.2.1.trans (by decide), h.2.2.2⟩


/-! ## Runs that a failing page cuts short -/

theorem loop_abort {τ π ω : Type} (env : Env τ π) (P : Pageable τ ω) (a : API ω)
    (path : String) (afterFetch : State τ ω → State τ ω) (s₀ : State τ ω) (n : Nat)
    (hget : ∀ i, 1 ≤ i → i < n →
      (fetchPage env a path i
        (beforeFetch P (i - 1) (pageState env P a path afterFetch s₀ (i - 1)))).1 = .nil)
    (hnext : ∀ i, 1 ≤ i → i < n →
      (P.HasNextPage (pageState env P a path afterFetch s₀ i)).1 = true)
    (hfail : (fetchPage env a path n
        (beforeFetch P (n - 1) (pageState env P a path afterFetch s₀ (n - 1)))).1 ≠ .nil) :
    ∀ m j fuel, j + 1 + m + 1 = n → m < fuel →
      (GetPaginated.loop env P a path afterFetch fuel (j + 1)
          (pageState env P a path afterFetch s₀ (j + 1))).ret
        = some (fetchPage env a path n
            (beforeFetch P (n - 1) (pageState env P a path afterFetch s₀ (n - 1)))).1
      ∧ getPages (GetPaginated.loop env P a path afterFetch fuel (j + 1)
          (pageState env P a path afterFetch s₀ (j + 1))).trace
          = (List.range' (j + 2) (m + 1)).map (fun i => some (toString i))
      ∧ (afterFetchTargets (GetPaginated.loop env P a path afterFetch fuel (j + 1)
          (pageState env P a path afterFetch s₀ (j + 1))).trace).length = m := by
  intro m
  induction m with
  | zero =>
    intro j fuel hj hfuel
    obtain ⟨f, rfl⟩ : ∃ f, fuel = f + 1 := ⟨fuel - 1, by omega⟩
    have hjn : n = j + 1 + 1 := by omega
    subst hjn
    have hn := hnext (j + 1) (by omega) (by omega)
    simp only [Nat.add_sub_cancel] at hfail ⊢
    have hfail' : (fetchPage env a path (j + 1 + 1)
        (P.HasNextPage (pageState env P a path afterFetch s₀ (j + 1))).2).1 ≠ .nil := hfail
    rw [loop_err env P a path afterFetch f (j + 1) _ hn hfail']
    refine ⟨rfl, ?_, ?_⟩
    · simp [getPages]
    · simp [afterFetchTargets]
  | succ m ih =>
    intro j fuel hj hfuel
    obtain ⟨f, rfl⟩ : ∃ f, fuel = f + 1 := ⟨fuel - 1, by omega⟩
    have hn := hnext (j + 1) (by omega) (by omega)
    have hg := hget (j + 1 + 1) (by omega) (by omega)
    simp only [Nat.add_sub_cancel] at hg
    have hg' : (fetchPage env a path (j + 1 + 1)
        (P.HasNextPage (pageState env P a path afterFetch s₀ (j + 1))).2).1 = .nil := hg
    rw [loop_ok env P a path afterFetch f (j + 1) _ hn hg']
    have hst : afterFetch (fetchPage env a path (j + 1 + 1)
          (P.HasNextPage (pageState env P a path afterFetch s₀ (j + 1))).2).2
        = pageState env P a path afterFetch s₀ (j + 1 + 1) := rfl
    rw [hst]
    obtain ⟨h1, h2, h3⟩ := ih (j + 1) f (by omega) (by omega)
    refine ⟨h1, ?_, ?_⟩
    · simp only [getPages, h2, List.range'_succ, List.map_cons]
    · simp only [afterFetchTargets, List.length_cons, h3]

/-- C2. For every `n ≥ 1`: if the `Get` calls for pages `1..n-1` succeed with `HasNextPage`
true after each, and the `Get` call for page `n` fails with error `e`, then `GetPaginated`
(with any fuel of at least `n - 1`) returns exactly `e`, has invoked `afterFetch` exactly
`n - 1` times, and has issued exactly the `Get` calls for pages `1..n`, none for a later
page. For `n = 1` that is the error with no callback invocation. -/
theorem getPaginated_abort {τ π ω : Type} (env : Env τ π) (P : Pageable τ ω) (a : API ω)
    (path : String) (afterFetch : State τ ω → State τ ω) (s₀ : State τ ω) (n fuel : Nat)
    (e : Error) (hn : 1 ≤ n)
    (hget : ∀ i, 1 ≤ i → i < n →
      (fetchPage env a path i
        (beforeFetch P (i - 1) (pageState env P a path afterFetch s₀ (i - 1)))).1 = .nil)
    (hnext : ∀ i, 1 ≤ i → i < n →
      (P.HasNextPage (pageState env P a path afterFetch s₀ i)).1 = true)
    (hfail : (fetchPage env a path n
        (beforeFetch P (n - 1) (pageState env P a path afterFetch s₀ (n - 1)))).1 = .error e)
    (hfuel : n - 1 ≤ fuel) :
    (a.GetPaginated env P path afterFetch fuel s₀).ret = some (.error e)
    ∧ getPages (a.GetPaginated env P path afterFetch fuel s₀).trace
        = (List.range' 1 n).map (fun i => some (toString i))
    ∧ (getPages (a.GetPaginated env P path afterFetch fuel s₀).trace).length = n
    ∧ (afterFetchTargets (a.GetPaginated env P path afterFetch fuel s₀).trace).length = n - 1 := by
  have hne : (fetchPage env a path n
      (beforeFetch P (n - 1) (pageState env P a path afterFetch s₀ (n - 1)))).1 ≠ .nil := by
    rw [hfail]
    exact fun h => Ret.noConfusion h
  have hlen : ∀ l : List (Event τ),
      getPages l = (List.range' 1 n).map (fun i => some (toString i)) →
      (getPages l).length = n := by
    intro l hl
    rw [hl]
    simp
  by_cases h1 : n = 1
  · subst h1
    have hne' : (fetchPage env a path 1 s₀).1 ≠ .nil := hne
    have hfail' : (fetchPage env a path 1 s₀).1 = .error e := hfail
    rw [getPaginated_err env P a path afterFetch fuel s₀ hne']
    refine ⟨by rw [hfail'], ?_, ?_, ?_⟩
    · simp [getPages]
    · simp [getPages]
    · simp [getPages, afterFetchTargets]
  · have hg : (fetchPage env a path 1 s₀).1 = .nil := hget 1 (le_refl 1) (by omega)
    rw [getPaginated_ok env P a path afterFetch fuel s₀ hg]
    have hst : afterFetch (fetchPage env a path 1 s₀).2
        = pageState env P a path afterFetch s₀ (0 + 1) := rfl
    rw [hst]
    obtain ⟨r1, r2, r3⟩ := loop_abort env P a path afterFetch s₀ n hget hnext hne
      (n - 2) 0 fuel (by omega) (by omega)
    obtain ⟨n', rfl⟩ : ∃ n', n = n' + 2 := ⟨n - 2, by omega⟩
    simp only [Nat.add_sub_cancel, Nat.zero_add] at r1 r2 r3 ⊢
    have hpages : getPages (Event.get (some (toString 1)) Ret.nil
          :: Event.afterFetch (fetchPage env a path 1 s₀).2.target
          :: (GetPaginated.loop env P a path afterFetch fuel 1
                (pageState env P a path afterFetch s₀ 1)).trace)
        = (List.range' 1 (n' + 2)).map (fun i => some (toString i)) := by
      simp only [getPages, r2, List.range'_succ, List.map_cons]
    refine ⟨by rw [r1, hfail], hpages, hlen _ hpages, ?_⟩
    simp only [afterFetchTargets, List.length_cons, r3]
    omega

/-- Witness of C2: page 1 arrives and announces page 2, the request for page 2 fails. -/
theorem getPaginated_abort_witness :
    (droppingAPI.GetPaginated mockEnv Pages.pageable "/time_entries" accumulate 1 start).ret
      = some (.error (.wrapf (.lib "connection reset")
          "HTTP request failure on https://api.harvestapp.com/v2/time_entries"))
    ∧ getPages
        (droppingAPI.GetPaginated mockEnv Pages.pageable "/time_entries" accumulate 1 start).trace
      = [some "1", some "2"]
    ∧ (afterFetchTargets
        (droppingAPI.GetPaginated mockEnv Pages.pageable "/time_entries" accumulate 1 start).trace
        ).length = 1 := by
  have h := getPaginated_abort mockEnv Pages.pageable droppingAPI "/time_entries" accumulate
    start 2 1
    (.wrapf (.lib "connection reset")
      "HTTP request failure on https://api.harvestapp.com/v2/time_entries")
    (by decide)
    (by intro i h1 h2; interval_cases i; decide)
    (by intro i h1 h2; interval_cases i; decide)
    (by decide) (by decide)
  exact ⟨h.1, h.2.1.trans (by decide), h.2.2.2⟩

/-! ## What the callback sees -/

theorem get_nil_inv {τ π ω : Type} (env : Env τ π) (a : API ω) (path : String)
    (args : Arguments) (target : τ) (w : ω)
    (h : (a.Get env path args target w).1 = .nil) :
    ∃ client req res w',
      env.NewRequest "GET" (a.BaseURL ++ path ++ "?" ++ env.Encode args) none = .ok req
      ∧ a.client = some client
      ∧ client w (a.AddHeaders req) = (.ok res, w')
      ∧ res.StatusCode = 200
      ∧ (env.Decode res.Body target).err = none
      ∧ a.Get env path args target w = (.nil, (env.Decode res.Body target).target, w') := by
  cases hreq : env.NewRequest "GET" (a.BaseURL ++ path ++ "?" ++ env.Encode args) none with
  | error err => simp [API.Get, hreq] at h
  | ok req =>
    cases hclient : a.client with
    | none => simp [API.Get, hreq, hclient] at h
    | some client =>
      rcases hdo : client w (a.AddHeaders req) with ⟨r, w'⟩
      cases r with
      | error err => simp [API.Get, hreq, hclient, hdo] at h
      | ok res =>
        by_cases hs : res.StatusCode = 200
        · cases hd : (env.Decode res.Body target).err with
          | some err => simp [API.Get, hreq, hclient, hdo, hs, hd] at h
          | none =>
            refine ⟨client, req, res, w', rfl, rfl, hdo, hs, hd, ?_⟩
            simp [API.Get, hreq, hclient, hdo, hs, hd]
        · simp [API.Get, hreq, hclient, hdo, hs] at h

theorem loop_afterFetch_sees {τ π ω : Type} (env : Env τ π) (P : Pageable τ ω) (a : API ω)
    (path : String) (afterFetch : State τ ω → State τ ω) (s₀ : State τ ω) :
    ∀ fuel j i t,
      (afterFetchTargets (GetPaginated.loop env P a path afterFetch fuel (j + 1)
          (pageState env P a path afterFetch s₀ (j + 1))).trace)[i]? = some t →
      (fetchPage env a path (j + 1 + i + 1)
        (beforeFetch P (j + 1 + i) (pageState env P a path afterFetch s₀ (j + 1 + i)))).1 = .nil
      ∧ t = (fetchPage env a path (j + 1 + i + 1)
              (beforeFetch P (j + 1 + i)
                (pageState env P a path afterFetch s₀ (j + 1 + i)))).2.target
      ∧ (getPages (GetPaginated.loop env P a path afterFetch fuel (j + 1)
          (pageState env P a path afterFetch s₀ (j + 1))).trace)[i]?
          = some (some (toString (j + 1 + i + 1))) := by
  intro fuel
  induction fuel with
  | zero =>
    intro j i t h
    simp [loop_zero, afterFetchTargets] at h
  | succ f ih =>
    intro j i t h
    by_cases hn : (P.HasNextPage (pageState env P a path afterFetch s₀ (j + 1))).1 = true
    · by_cases hg : (fetchPage env a path (j + 1 + 1)
          (P.HasNextPage (pageState env P a path afterFetch s₀ (j + 1))).2).1 = .nil
      · rw [loop_ok env P a path afterFetch f (j + 1) _ hn hg] at h ⊢
        have hst : afterFetch (fetchPage env a path (j + 1 + 1)
              (P.HasNextPage (pageState env P a path afterFetch s₀ (j + 1))).2).2
            = pageState env P a path afterFetch s₀ (j + 1 + 1) := rfl
        rw [hst] at h ⊢
        cases i with
        | zero =>
          simp only [afterFetchTargets, List.getElem?_cons_zero, Option.some.injEq] at h
          exact ⟨hg, h.symm, by simp [getPages]⟩
        | succ i =>
          simp only [afterFetchTargets, List.getElem?_cons_succ] at h
          obtain ⟨h1, h2, h3⟩ := ih (j + 1) i t h
          have e : j + 1 + 1 + i = j + 1 + (i + 1) := by omega
          rw [e] at h1 h2 h3
          exact ⟨h1, h2, by simpa [getPages] using h3⟩
      · rw [loop_err env P a path afterFetch f (j + 1) _ hn hg] at h
        simp [afterFetchTargets] at h
    · have hn' : (P.HasNextPage (pageState env P a path afterFetch s₀ (j + 1))).1 = false := by
        simpa using hn
      rw [loop_stop env P a path afterFetch f (j + 1) _ hn'] at h
      simp [afterFetchTargets] at h

/-- C3. In any run of `GetPaginated`, the destination that the `i+1`-th `afterFetch`
invocation finds is the one the `i+1`-th `Get` has just written: that `Get`, issued with
`args["page"] = i+1` on the state left by the first `i` pages, got a response of status 200
whose body the decoder wrote, without error, over the destination holding the previous page,
and `afterFetch` sees exactly the result. -/
theorem afterFetch_sees_current_page {τ π ω : Type} (env : Env τ π) (P : Pageable τ ω)
    (a : API ω) (path : String) (afterFetch : State τ ω → State τ ω) (s₀ : State τ ω)
    (fuel i : Nat) (t : τ)
    (h : (afterFetchTargets (a.GetPaginated env P path afterFetch fuel s₀).trace)[i]? = some t) :
    (getPages (a.GetPaginated env P path afterFetch fuel s₀).trace)[i]?
      = some (some (toString (i + 1)))
    ∧ (fetchPage env a path (i + 1)
        (beforeFetch P i (pageState env P a path afterFetch s₀ i))).1 = .nil
    ∧ t = (fetchPage env a path (i + 1)
            (beforeFetch P i (pageState env P a path afterFetch s₀ i))).2.target
    ∧ ∃ client req res w',
        env.NewRequest "GET"
          (a.BaseURL ++ path ++ "?"
            ++ env.Encode ((beforeFetch P i (pageState env P a path afterFetch s₀ i)).args.set
                "page" (toString (i + 1)))) none = .ok req
        ∧ a.client = some client
        ∧ client (beforeFetch P i (pageState env P a path afterFetch s₀ i)).world
            (a.AddHeaders req) = (.ok res, w')
        ∧ res.StatusCode = 200
        ∧ (env.Decode res.Body
            (beforeFetch P i (pageState env P a path afterFetch s₀ i)).target).err = none
        ∧ t = (env.Decode res.Body
            (beforeFetch P i (pageState env P a path afterFetch s₀ i)).target).target := by
  have key : (getPages (a.GetPaginated env P path afterFetch fuel s₀).trace)[i]?
        = some (some (toString (i + 1)))
      ∧ (fetchPage env a path (i + 1)
          (beforeFetch P i (pageState env P a path afterFetch s₀ i))).1 = .nil
      ∧ t = (fetchPage env a path (i + 1)
          (beforeFetch P i (pageState env P a path afterFetch s₀ i))).2.target := by
    by_cases hg : (fetchPage env a path 1 s₀).1 = .nil
    · rw [getPaginated_ok env P a path afterFetch fuel s₀ hg] at h ⊢
      have hst : afterFetch (fetchPage env a path 1 s₀).2
          = pageState env P a path afterFetch s₀ (0 + 1) := rfl
      rw [hst] at h ⊢
      cases i with
      | zero =>
        simp only [afterFetchTargets, List.getElem?_cons_zero, Option.some.injEq] at h
        exact ⟨by simp [getPages], hg, h.symm⟩
      | succ i =>
        simp only [afterFetchTargets, List.getElem?_cons_succ] at h
        obtain ⟨h1, h2, h3⟩ := loop_afterFetch_sees env P a path afterFetch s₀ fuel 0 i t h
        have e : 0 + 1 + i = i + 1 := by omega
        rw [e] at h1 h2 h3
        exact ⟨by simpa [getPages] using h3, h1, h2⟩
    · rw [getPaginated_err env P a path afterFetch fuel s₀ hg] at h
      simp [afterFetchTargets] at h
  refine ⟨key.1, key.2.1, key.2.2, ?_⟩
  obtain ⟨client, req, res, w', h1, h2, h3, h4, h5, h6⟩ :=
    get_nil_inv env a path
      ((beforeFetch P i (pageState env P a path afterFetch s₀ i)).args.set "page"
        (toString (i + 1)))
      (beforeFetch P i (pageState env P a path afterFetch s₀ i)).target
      (beforeFetch P i (pageState env P a path afterFetch s₀ i)).world key.2.1
  refine ⟨client, req, res, w', h1, h2, h3, h4, h5, ?_⟩
  rw [key.2.2]
  simp only [fetchPage, h6]

/-- Witness of C3, the two-page scenario of the specification: `accumulate` is called twice
and finds the items `["a"]`, then `["b"]`; the call returns nil and the caller has both. -/
theorem afterFetch_sees_current_page_witness :
    (twoPageAPI.GetPaginated mockEnv Pages.pageable "/time_entries" accumulate 2 start).trace
      = [.get (some "1") .nil, .afterFetch { items := ["a"], next_page := some 2 },
         .hasNextPage true,
         .get (some "2") .nil, .afterFetch { items := ["b"], next_page := none },
         .hasNextPage false]
    ∧ (afterFetchTargets
        (twoPageAPI.GetPaginated mockEnv Pages.pageable "/time_entries" accumulate 2 start).trace
        ).map Pages.items = [["a"], ["b"]]
    ∧ (twoPageAPI.GetPaginated mockEnv Pages.pageable "/time_entries" accumulate 2 start).ret
      = some .nil
    ∧ (twoPageAPI.GetPaginated mockEnv Pages.pageable "/time_entries" accumulate 2 start).state.world
      = ["a", "b"]
    ∧ (getPages
        (twoPageAPI.GetPaginated mockEnv Pages.pageable "/time_entries" accumulate 2 start).trace
        )[1]? = some (some (toString (1 + 1))) :=
  ⟨by decide, by decide, by decide, by decide,
    (afterFetch_sees_current_page mockEnv Pages.pageable twoPageAPI "/time_entries" accumulate
      start 2 1 { items := ["b"], next_page := none } (by decide)).1⟩

/-! ## The order of the calls -/

theorem loop_trace_shape {τ π ω : Type} (env : Env τ π) (P : Pageable τ ω) (a : API ω)
    (path : String) (afterFetch : State τ ω → State τ ω) :
    ∀ (fuel j : Nat) (s : State τ ω),
      (∀ n b, (GetPaginated.loop env P a path afterFetch fuel j s).trace[n]?
            = some (.hasNextPage b) →
          n = 0 ∨ ∃ m p t, n = m + 2
            ∧ (GetPaginated.loop env P a path afterFetch fuel j s).trace[m]?
                = some (.get p .nil)
            ∧ (GetPaginated.loop env P a path afterFetch fuel j s).trace[m + 1]?
                = some (.afterFetch t))
      ∧ (∀ n p r, (GetPaginated.loop env P a path afterFetch fuel j s).trace[n]?
            = some (.get p r) → r ≠ .nil →
          (GetPaginated.loop env P a path afterFetch fuel j s).trace.length = n + 1) := by
  intro fuel
  induction fuel with
  | zero =>
    intro j s
    simp [loop_zero]
  | succ f ih =>
    intro j s
    by_cases hn : (P.HasNextPage s).1 = true
    · by_cases hg : (fetchPage env a path (j + 1) (P.HasNextPage s).2).1 = .nil
      · rw [loop_ok env P a path afterFetch f j s hn hg]
        obtain ⟨ih1, ih2⟩ := ih (j + 1)
          (afterFetch (fetchPage env a path (j + 1) (P.HasNextPage s).2).2)
        constructor
        · intro n b h
          rcases n with _ | _ | _ | n
          · exact Or.inl rfl
          · simp at h
          · simp at h
          · right
            simp only [List.getElem?_cons_succ] at h
            rcases ih1 n b h with h0 | ⟨m, p, t, hm, h1, h2⟩
            · subst h0
              exact ⟨1, some (toString (j + 1)),
                (fetchPage env a path (j + 1) (P.HasNextPage s).2).2.target,
                rfl, by simp, by simp⟩
            · subst hm
              exact ⟨m + 3, p, t, rfl, by simpa using h1, by simpa using h2⟩
        · intro n p r h hr
          rcases n with _ | _ | _ | n
          · simp at h
          · simp at h
            exact absurd h.2.symm hr
          · simp at h
          · simp only [List.getElem?_cons_succ] at h
            have := ih2 n p r h hr
            simp only [List.length_cons, this]
      · rw [loop_err env P a path afterFetch f j s hn hg]
        constructor
        · intro n b h
          rcases n with _ | _ | n
          · exact Or.inl rfl
          · simp at h
          · simp at h
        · intro n p r h hr
          rcases n with _ | _ | n
          · simp at h
          · simp
          · simp at h
    · have hn' : (P.HasNextPage s).1 = false := by simpa using hn
      rw [loop_stop env P a path afterFetch f j s hn']
      constructor
      · intro n b h
        rcases n with _ | n
        · exact Or.inl rfl
        · simp at h
      · intro n p r h hr
        rcases n with _ | n
        · simp at h
        · simp at h

/-- C7. In every run of `GetPaginated`, finished or not: the first call is a `Get`; every
evaluation of `HasNextPage` comes right after an `afterFetch` invocation that itself comes
right after a `Get` that returned nil (so none happens before the first `Get` has
succeeded); and a `Get` that did not return nil is the last call of the run (so
`HasNextPage` is never evaluated after a failed `Get`). -/
theorem hasNextPage_only_after_fetch {τ π ω : Type} (env : Env τ π) (P : Pageable τ ω)
    (a : API ω) (path : String) (afterFetch : State τ ω → State τ ω) (fuel : Nat)
    (s₀ : State τ ω) :
    (∃ p r, (a.GetPaginated env P path afterFetch fuel s₀).trace[0]? = some (.get p r))
    ∧ (∀ n b, (a.GetPaginated env P path afterFetch fuel s₀).trace[n]?
          = some (.hasNextPage b) →
        ∃ m p t, n = m + 2
          ∧ (a.GetPaginated env P path afterFetch fuel s₀).trace[m]? = some (.get p .nil)
          ∧ (a.GetPaginated env P path afterFetch fuel s₀).trace[m + 1]?
              = some (.afterFetch t))
    ∧ (∀ n p r, (a.GetPaginated env P path afterFetch fuel s₀).trace[n]?
          = some (.get p r) → r ≠ .nil →
        (a.GetPaginated env P path afterFetch fuel s₀).trace.length = n + 1) := by
  by_cases hg : (fetchPage env a path 1 s₀).1 = .nil
  · rw [getPaginated_ok env P a path afterFetch fuel s₀ hg]
    obtain ⟨ih1, ih2⟩ := loop_trace_shape env P a path afterFetch fuel 1
      (afterFetch (fetchPage env a path 1 s₀).2)
    refine ⟨⟨some (toString 1), .nil, by simp⟩, ?_, ?_⟩
    · intro n b h
      rcases n with _ | _ | n
      · simp at h
      · simp at h
      · simp only [List.getElem?_cons_succ] at h
        rcases ih1 n b h with h0 | ⟨m, p, t, hm, h1, h2⟩
        · subst h0
          exact ⟨0, some (toString 1), (fetchPage env a path 1 s₀).2.target,
            rfl, by simp, by simp⟩
        · subst hm
          exact ⟨m + 2, p, t, rfl, by simpa using h1, by simpa using h2⟩
    · intro n p r h hr
      rcases n with _ | _ | n
      · simp at h
        exact absurd h.2.symm hr
      · simp at h
      · simp only [List.getElem?_cons_succ] at h
        have := ih2 n p r h hr
        simp only [List.length_cons, this]
  · rw [getPaginated_err env P a path afterFetch fuel s₀ hg]
    refine ⟨⟨some (toString 1), (fetchPage env a path 1 s₀).1, by simp⟩, ?_, ?_⟩
    · intro n b h
      rcases n with _ | n
      · simp at h
      · simp at h
    · intro n p r h hr
      rcases n with _ | n
      · simp
      · simp at h

/-- Witness of C7 on the two-page run: the call at position 2 is `HasNextPage`, the calls at
positions 0 and 1 are the successful `Get` and the `afterFetch` of page 1. -/
theorem hasNextPage_only_after_fetch_witness :
    (twoPageAPI.GetPaginated mockEnv Pages.pageable "/time_entries" accumulate 2 start).trace[2]?
      = some (.hasNextPage true)
    ∧ ∃ m p t, 2 = m + 2
      ∧ (twoPageAPI.GetPaginated mockEnv Pages.pageable "/time_entries" accumulate 2 start
          ).trace[m]? = some (.get p .nil)
      ∧ (twoPageAPI.GetPaginated mockEnv Pages.pageable "/time_entries" accumulate 2 start
          ).trace[m + 1]? = some (.afterFetch t) :=
  ⟨by decide,
    (hasNextPage_only_after_fetch mockEnv Pages.pageable twoPageAPI "/time_entries" accumulate 2
      start).2.1 2 true (by decide)⟩

/-! ## The caller's map -/

theorem loop_args_frame {τ π ω : Type} (env : Env τ π) (P : Pageable τ ω) (a : API ω)
    (path : String) (afterFetch : State τ ω → State τ ω)
    (hframe : ∀ s, (afterFetch s).args = s.args)
    (hpred : ∀ s, (P.HasNextPage s).2.args = s.args) :
    ∀ (fuel j : Nat) (s : State τ ω), s.args "page" = some (toString j) →
      (∀ k, k ≠ "page" →
        (GetPaginated.loop env P a path afterFetch fuel j s).state.args k = s.args k)
      ∧ (GetPaginated.loop env P a path afterFetch fuel j s).state.args "page"
          = some (toString
              (j + (getPages (GetPaginated.loop env P a path afterFetch fuel j s).trace).length))
      := by
  intro fuel
  induction fuel with
  | zero =>
    intro j s hs
    simp [loop_zero, getPages, hs]
  | succ f ih =>
    intro j s hs
    by_cases hn : (P.HasNextPage s).1 = true
    · by_cases hg : (fetchPage env a path (j + 1) (P.HasNextPage s).2).1 = .nil
      · rw [loop_ok env P a path afterFetch f j s hn hg]
        have hargs : (afterFetch (fetchPage env a path (j + 1) (P.HasNextPage s).2).2).args
            = s.args.set "page" (toString (j + 1)) := by
          rw [hframe, ← hpred s]
          rfl
        obtain ⟨h1, h2⟩ := ih (j + 1)
          (afterFetch (fetchPage env a path (j + 1) (P.HasNextPage s).2).2)
          (by rw [hargs]; exact set_page_get _ _)
        constructor
        · intro k hk
          show (GetPaginated.loop env P a path afterFetch f (j + 1)
            (afterFetch (fetchPage env a path (j + 1) (P.HasNextPage s).2).2)).state.args k
              = s.args k
          rw [h1 k hk, hargs, set_other_get _ _ _ hk]
        · show (GetPaginated.loop env P a path afterFetch f (j + 1)
            (afterFetch (fetchPage env a path (j + 1) (P.HasNextPage s).2).2)).state.args "page"
              = _
          rw [h2]
          simp only [getPages, List.length_cons]
          have e : ∀ l : Nat, j + 1 + l = j + (l + 1) := by
            intro l
            omega
          rw [e]
      · rw [loop_err env P a path afterFetch f j s hn hg]
        constructor
        · intro k hk
          show ((P.HasNextPage s).2.args.set "page" (toString (j + 1))) k = s.args k
          rw [set_other_get _ _ _ hk, hpred]
        · simp [getPages, fetchPage, set_page_get]
    · have hn' : (P.HasNextPage s).1 = false := by simpa using hn
      rw [loop_stop env P a path afterFetch f j s hn']
      refine ⟨?_, ?_⟩
      · intro k _
        show (P.HasNextPage s).2.args k = s.args k
        rw [hpred]
      · show (P.HasNextPage s).2.args "page" = _
        rw [hpred, hs]
        simp [getPages]

/-- C10, as the code has it. If the caller's own code that runs during the call, the
`afterFetch` closure and the destination's `HasNextPage` method, leaves the caller's map
alone (`Get` does so by construction), then after `GetPaginated`, however the run ended,
every entry of the map other than `page` is what it was, no other key has appeared or
vanished, and `page` holds the decimal string of the number of `Get` calls issued, whatever
it held before. -/
theorem getPaginated_args_frame {τ π ω : Type} (env : Env τ π) (P : Pageable τ ω) (a : API ω)
    (path : String) (afterFetch : State τ ω → State τ ω) (fuel : Nat) (s₀ : State τ ω)
    (hframe : ∀ s, (afterFetch s).args = s.args)
    (hpred : ∀ s, (P.HasNextPage s).2.args = s.args) :
    (∀ k, k ≠ "page" →
      (a.GetPaginated env P path afterFetch fuel s₀).state.args k = s₀.args k)
    ∧ (a.GetPaginated env P path afterFetch fuel s₀).state.args "page"
        = some (toString (getPages (a.GetPaginated env P path afterFetch fuel s₀).trace).length)
    ∧ 1 ≤ (getPages (a.GetPaginated env P path afterFetch fuel s₀).trace).length := by
  by_cases hg : (fetchPage env a path 1 s₀).1 = .nil
  · rw [getPaginated_ok env P a path afterFetch fuel s₀ hg]
    have hargs : (afterFetch (fetchPage env a path 1 s₀).2).args
        = s₀.args.set "page" (toString 1) := by
      rw [hframe]
      rfl
    obtain ⟨h1, h2⟩ := loop_args_frame env P a path afterFetch hframe hpred fuel 1
      (afterFetch (fetchPage env a path 1 s₀).2) (by rw [hargs]; exact set_page_get _ _)
    refine ⟨?_, ?_, ?_⟩
    · intro k hk
      show (GetPaginated.loop env P a path afterFetch fuel 1
        (afterFetch (fetchPage env a path 1 s₀).2)).state.args k = s₀.args k
      rw [h1 k hk, hargs, set_other_get _ _ _ hk]
    · show (GetPaginated.loop env P a path afterFetch fuel 1
        (afterFetch (fetchPage env a path 1 s₀).2)).state.args "page" = _
      rw [h2]
      simp only [getPages, List.length_cons]
      have e : ∀ l : Nat, 1 + l = l + 1 := by
        intro l
        omega
      rw [e]
    · simp [getPages]
  · rw [getPaginated_err env P a path afterFetch fuel s₀ hg]
    refine ⟨?_, ?_, ?_⟩
    · intro k hk
      exact set_other_get _ _ _ hk
    · simp [getPages, fetchPage, set_page_get]
    · simp [getPages]

/-- Witness of C10 as amended: `accumulate` and the plain envelope leave the map alone; after
the two-page run the `from` entry is untouched and the stale `page` entry `7` has become
`2`. -/
theorem getPaginated_args_frame_witness :
    (∀ s, (accumulate s).args = s.args)
    ∧ (∀ s, (Pages.pageable.HasNextPage s).2.args = s.args)
    ∧ (twoPageAPI.GetPaginated mockEnv Pages.pageable "/time_entries" accumulate 2 filtered
        ).ret = some .nil
    ∧ (twoPageAPI.GetPaginated mockEnv Pages.pageable "/time_entries" accumulate 2 filtered
        ).state.args "from" = some "2024-01-01"
    ∧ (twoPageAPI.GetPaginated mockEnv Pages.pageable "/time_entries" accumulate 2 filtered
        ).state.args "page" = some "2" := by
  have h := getPaginated_args_frame mockEnv Pages.pageable twoPageAPI "/time_entries" accumulate
    2 filtered (fun _ => rfl) (fun _ => rfl)
  exact ⟨fun _ => rfl, fun _ => rfl, by decide, (h.1 "from" (by decide)).trans (by decide),
    h.2.1.trans (by decide)⟩

/-- Counterexample to C10 as stated: `Get` does not touch the map and the run returns nil
after two `Get` calls; yet when the callback writes to the caller's map, and likewise when
the destination's `HasNextPage` does, the key `per_page` has appeared and `page` holds `99`,
not `2`. -/
theorem getPaginated_callback_writes_args :
    start.args "per_page" = none
    ∧ (twoPageAPI.GetPaginated mockEnv Pages.pageable "/time_entries" meddle 2 start).ret
      = some .nil
    ∧ (getPages
        (twoPageAPI.GetPaginated mockEnv Pages.pageable "/time_entries" meddle 2 start).trace
        ).length = 2
    ∧ (twoPageAPI.GetPaginated mockEnv Pages.pageable "/time_entries" meddle 2 start
        ).state.args "per_page" = some "50"
    ∧ (twoPageAPI.GetPaginated mockEnv Pages.pageable "/time_entries" meddle 2 start
        ).state.args "page" = some "99"
    ∧ (∀ s, (accumulate s).args = s.args)
    ∧ (twoPageAPI.GetPaginated mockEnv Pages.meddling "/time_entries" accumulate 2 start).ret
      = some .nil
    ∧ (getPages
        (twoPageAPI.GetPaginated mockEnv Pages.meddling "/time_entries" accumulate 2 start).trace
        ).length = 2
    ∧ (twoPageAPI.GetPaginated mockEnv Pages.meddling "/time_entries" accumulate 2 start
        ).state.args "per_page" = some "50"
    ∧ (twoPageAPI.GetPaginated mockEnv Pages.meddling "/time_entries" accumulate 2 start
        ).state.args "page" = some "99" := by
  refine ⟨?_, ?_, ?_, ?_, ?_, fun _ => rfl, ?_, ?_, ?_, ?_⟩ <;> decide

end Harvest
